import Mathlib

/-!
Verification of the Lightflus coordination plane against its specification.

The definitions below are a shallow embedding of the Rust sources:
  - `src/coordinator/src/coord.rs` — `Coordinator`, `PersistDataflowStorage`,
    `MemDataflowStorage`, `DataflowStorageImpl`;
  - `src/common/src/net/gateway.rs` — `SafeTaskManagerRpcGateway`.
Protobuf wire types (`ResourceId`, `Dataflow`, ...), `Dataflow::validate`,
`HashedResourceId` and the cluster model live in crates whose sources are not
part of this tree; they are modelled from the specification where needed, and
each such definition says so in its doc comment.

The persistent backend wraps a `sled::Db`.  Every sled operation returns a
`Result`, so each embedded operation takes an explicit `ioOk : Bool` telling
whether the underlying store call succeeds on this invocation; the `false`
case exercises the source's error-handling branches
(`unwrap_or(false)`, `map_err`, the logging match arm).
-/

namespace Lightflus

/-- Modelled from the spec: `JobId`/`ResourceId` is an opaque structured
identifier (namespace + name) with structural equality (proto crate is not
under `src/`). -/
structure ResourceId where
  resource_id : String
  namespace_id : String
deriving DecidableEq, Repr, Inhabited

/-- Modelled from the spec: `HostAddr` is a `(host, port)` pair with
equality-by-value, convertible to a URI (proto crate is not under `src/`). -/
structure HostAddr where
  host : String
  port : Nat
deriving DecidableEq, Repr, Inhabited

/-- Modelled from the spec: `HostAddr` is "convertible to a URI". -/
def HostAddr.as_uri (a : HostAddr) : String :=
  "http://" ++ a.host ++ ":" ++ toString a.port

/-- prost's `Message::clear` resets every field to its default value; the
worker gateway's `close` calls `self.host_addr.clear()`. -/
def HostAddr.clear (_ : HostAddr) : HostAddr :=
  { host := "", port := 0 }

/-- Modelled from the spec: an `OperatorSpec` carries a stable `executor_id`,
an opaque payload, and an optional `host_addr` set by placement. -/
structure OperatorSpec where
  executor_id : Nat
  payload : String
  host_addr : Option HostAddr
deriving DecidableEq, Repr, Inhabited

/-- Modelled from the spec: a `Dataflow` is
`{ job_id, nodes : ordered sequence of OperatorSpec, edges }`. -/
structure Dataflow where
  job_id : Option ResourceId
  nodes : List OperatorSpec
  edges : List (Nat × Nat)
deriving DecidableEq, Repr, Inhabited

/-- `DataflowStatus` as used by `Coordinator::terminate_dataflow`. -/
inductive DataflowStatus where
  | Initialized
  | Running
  | Closed
deriving DecidableEq, Repr

/-- `common::err::ErrorKind`, the variants used in `coord.rs` (the `common`
crate's `err` module is not under `src/`; variants are read off the call
sites in `coord.rs`). -/
inductive ErrorKind where
  | SaveDataflowFailed
  | GetDataflowFailed
  | DeleteDataflowFailed
deriving DecidableEq, Repr

/-- `common::err::CommonException { kind, message }` as used in `coord.rs`. -/
structure CommonException where
  kind : ErrorKind
  message : String
deriving DecidableEq, Repr

/-- The subset of `tonic::Code` values produced by the embedded code. -/
inductive StatusCode where
  | ok
  | invalidArgument
  | internal
  | unavailable
  | dataLoss
deriving DecidableEq, Repr

/-- `tonic::Status`: a code together with a message. -/
structure GStatus where
  code : StatusCode
  message : String
deriving DecidableEq, Repr

def GStatus.invalid_argument (msg : String) : GStatus :=
  { code := StatusCode.invalidArgument, message := msg }

def GStatus.internal (msg : String) : GStatus :=
  { code := StatusCode.internal, message := msg }

/-! ### Canonical byte encoding

The spec requires a canonical serialization that is bijective on well-formed
inputs ("canonical encode/decode on `Dataflow` and `JobId` is bijective").
The codec itself (prost) is external, so stored bytes are modelled as either
the canonical encoding of a `Dataflow` or arbitrary junk bytes; `decode`
(the embedding of `utils::from_pb_slice`, whose source is not under `src/`)
succeeds exactly on canonical encodings. -/

/-- A stored value in the persistent store: canonical `Dataflow` bytes or
corrupt/junk bytes. -/
inductive StoredBytes where
  | enc (df : Dataflow)
  | raw (junk : List Nat)
deriving DecidableEq, Repr

/-- Modelled from the spec: `utils::from_pb_slice` decodes canonical bytes
back to the message and fails on anything else. -/
def decodeDataflow : StoredBytes → Option Dataflow
  | StoredBytes.enc df => some df
  | StoredBytes.raw _ => none

/-! ### The persistent backend (`PersistDataflowStorage` over `sled::Db`)

`sled::Db` is an external embedded key-value store; the spec treats it as an
opaque byte store, so it is modelled as an association list from encoded
`ResourceId` keys to stored bytes.  Keys compare by `ResourceId` equality:
prost's encoding is canonical, so byte equality of encoded keys coincides
with structural equality (a missing `job_id` encodes to the empty byte
string, which is also what `unwrap_or_default()` produces and what the
default `ResourceId` encodes to, so the default id stands for that key). -/

/-- The sled database contents: encoded-key / stored-bytes pairs. -/
def SledDb := List (ResourceId × StoredBytes)

/-- Association-list lookup on the store. -/
def SledDb.lookup (db : SledDb) (k : ResourceId) : Option StoredBytes :=
  match db with
  | [] => none
  | (k', v) :: rest => if k' = k then some v else SledDb.lookup rest k

/-- Association-list upsert on the store (`sled::Db::insert`). -/
def SledDb.insertKV (db : SledDb) (k : ResourceId) (v : StoredBytes) : SledDb :=
  match db with
  | [] => [(k, v)]
  | (k', v') :: rest =>
      if k' = k then (k, v) :: rest else (k', v') :: SledDb.insertKV rest k v

/-- Key removal on the store (`sled::Db::remove`). -/
def SledDb.removeKey (db : SledDb) (k : ResourceId) : SledDb :=
  match db with
  | [] => []
  | (k', v') :: rest =>
      if k' = k then SledDb.removeKey rest k
      else (k', v') :: SledDb.removeKey rest k

/-- `PersistDataflowStorage { db: sled::Db }`. -/
structure PersistDataflowStorage where
  db : SledDb

/-- `PersistDataflowStorage::save`: insert the encoded dataflow under the
encoded `job_id` (`unwrap_or_default()` maps a missing id to the default
key); a sled error is mapped to `CommonException` with kind
`SaveDataflowFailed`.  `ioOk` is the outcome of the underlying
`sled::Db::insert`. -/
def PersistDataflowStorage.save (s : PersistDataflowStorage) (df : Dataflow)
    (ioOk : Bool) : Except CommonException PersistDataflowStorage :=
  if ioOk then
    Except.ok ⟨s.db.insertKV (df.job_id.getD default) (StoredBytes.enc df)⟩
  else
    Except.error { kind := ErrorKind.SaveDataflowFailed, message := "sled io error" }

/-- `PersistDataflowStorage::get` with its logging made observable: the
second component records whether `tracing::error!` fired.  The source maps a
sled error to a `CommonException`, logs it, and returns `None`; a decode
failure is discarded by `.ok()` inside the `Ok` branch, without logging. -/
def PersistDataflowStorage.get (s : PersistDataflowStorage) (job_id : ResourceId)
    (ioOk : Bool) : Option Dataflow × Bool :=
  if ioOk then
    match s.db.lookup job_id with
    | none => (none, false)
    | some buf => (decodeDataflow buf, false)
  else
    (none, true)

/-- `PersistDataflowStorage::may_exists`:
`self.db.contains_key(job_id.encode_to_vec()).unwrap_or(false)` — a sled
error is collapsed to `false`. -/
def PersistDataflowStorage.may_exists (s : PersistDataflowStorage)
    (job_id : ResourceId) (ioOk : Bool) : Bool :=
  if ioOk then (s.db.lookup job_id).isSome else false

/-- `PersistDataflowStorage::delete`: remove the key; a sled error is mapped
to `CommonException` with kind `DeleteDataflowFailed`. -/
def PersistDataflowStorage.delete (s : PersistDataflowStorage)
    (job_id : ResourceId) (ioOk : Bool) :
    Except CommonException PersistDataflowStorage :=
  if ioOk then Except.ok ⟨s.db.removeKey job_id⟩
  else Except.error { kind := ErrorKind.DeleteDataflowFailed, message := "sled io error" }

/-! ### The in-memory backend (`MemDataflowStorage`) -/

/-- Modelled from the spec: `HashedResourceId` (in `common::types`, not under
`src/`) is the stable hash of a `ResourceId` used as the in-memory map key;
the spec keys storage on the `JobId` itself, so the hash is modelled as the
identity wrapper (stable and collision-free). -/
structure HashedResourceId where
  ofId : ResourceId
deriving DecidableEq, Repr

/-- `HashedResourceId::from(&ResourceId)`. -/
def HashedResourceId.fromId (r : ResourceId) : HashedResourceId := ⟨r⟩

/-- The `BTreeMap<HashedResourceId, Dataflow>` cache. -/
def MemCache := List (HashedResourceId × Dataflow)

def MemCache.lookup (c : MemCache) (k : HashedResourceId) : Option Dataflow :=
  match c with
  | [] => none
  | (k', v) :: rest => if k' = k then some v else MemCache.lookup rest k

def MemCache.insertKV (c : MemCache) (k : HashedResourceId) (v : Dataflow) : MemCache :=
  match c with
  | [] => [(k, v)]
  | (k', v') :: rest =>
      if k' = k then (k, v) :: rest else (k', v') :: MemCache.insertKV rest k v

def MemCache.removeKey (c : MemCache) (k : HashedResourceId) : MemCache :=
  match c with
  | [] => []
  | (k', v') :: rest =>
      if k' = k then MemCache.removeKey rest k
      else (k', v') :: MemCache.removeKey rest k

/-- `MemDataflowStorage { cache: BTreeMap<HashedResourceId, Dataflow> }`. -/
structure MemDataflowStorage where
  cache : MemCache

/-- `MemDataflowStorage::save` inserts under
`HashedResourceId::from(dataflow.job_id.as_ref().unwrap())`: the `unwrap`
panics when `job_id` is `None`, which the embedding renders as `none`;
otherwise the insert happens and `Ok(())` is returned. -/
def MemDataflowStorage.save (s : MemDataflowStorage) (df : Dataflow) :
    Option (Except CommonException MemDataflowStorage) :=
  match df.job_id with
  | none => none
  | some j =>
      some (Except.ok ⟨s.cache.insertKV (HashedResourceId.fromId j) df⟩)

/-- `MemDataflowStorage::get`. -/
def MemDataflowStorage.get (s : MemDataflowStorage) (job_id : ResourceId) :
    Option Dataflow :=
  s.cache.lookup (HashedResourceId.fromId job_id)

/-- `MemDataflowStorage::may_exists`. -/
def MemDataflowStorage.may_exists (s : MemDataflowStorage) (job_id : ResourceId) :
    Bool :=
  (s.cache.lookup (HashedResourceId.fromId job_id)).isSome

/-- `MemDataflowStorage::delete`: always `Ok(())`. -/
def MemDataflowStorage.delete (s : MemDataflowStorage) (job_id : ResourceId) :
    Except CommonException MemDataflowStorage :=
  Except.ok ⟨s.cache.removeKey (HashedResourceId.fromId job_id)⟩

/-! ### The storage dispatch enum (`DataflowStorageImpl`) -/

/-- `DataflowStorageImpl`: closed dispatch over the two backends. -/
inductive DataflowStorageImpl where
  | Persist (storage : PersistDataflowStorage)
  | Memory (storage : MemDataflowStorage)

/-- `DataflowStorageImpl::save`; `none` models the in-memory backend's panic
on a missing `job_id`.  `ioOk` is consumed only by the persistent backend. -/
def DataflowStorageImpl.save (s : DataflowStorageImpl) (df : Dataflow)
    (ioOk : Bool) : Option (Except CommonException DataflowStorageImpl) :=
  match s with
  | DataflowStorageImpl.Persist st =>
      some ((st.save df ioOk).map DataflowStorageImpl.Persist)
  | DataflowStorageImpl.Memory st =>
      (st.save df).map (fun r => r.map DataflowStorageImpl.Memory)

/-- `DataflowStorageImpl::get` (the logging flag of the persistent backend is
dropped here, as `Coordinator::get_dataflow` only sees the option). -/
def DataflowStorageImpl.get (s : DataflowStorageImpl) (job_id : ResourceId)
    (ioOk : Bool) : Option Dataflow :=
  match s with
  | DataflowStorageImpl.Persist st => (st.get job_id ioOk).1
  | DataflowStorageImpl.Memory st => st.get job_id

/-- `DataflowStorageImpl::may_exists`. -/
def DataflowStorageImpl.may_exists (s : DataflowStorageImpl) (job_id : ResourceId)
    (ioOk : Bool) : Bool :=
  match s with
  | DataflowStorageImpl.Persist st => st.may_exists job_id ioOk
  | DataflowStorageImpl.Memory st => st.may_exists job_id

/-- `DataflowStorageImpl::delete`. -/
def DataflowStorageImpl.delete (s : DataflowStorageImpl) (job_id : ResourceId)
    (ioOk : Bool) : Except CommonException DataflowStorageImpl :=
  match s with
  | DataflowStorageImpl.Persist st => (st.delete job_id ioOk).map DataflowStorageImpl.Persist
  | DataflowStorageImpl.Memory st => (st.delete job_id).map DataflowStorageImpl.Memory

/-! ### The worker RPC gateway (`SafeTaskManagerRpcGateway`)

The tonic client and transport channel are external; a client is modelled by
the URI and connect timeout it was constructed with.  What the embedding
captures is exactly the gateway logic visible in `gateway.rs`: the cached
`Option` slot inside the `Arc<Mutex<...>>`, the `get_or_insert_with` step
performed at the head of every RPC method, `new`, and `close`. -/

/-- `pub(crate) const DEFAULT_CONNECT_TIMEOUT: u64 = 3;` -/
def DEFAULT_CONNECT_TIMEOUT : Nat := 3

/-- A `TaskWorkerApiClient<Channel>`, identified by the URI and connect
timeout it was created with (the client itself is external code). -/
structure Client where
  uri : String
  connect_timeout_secs : Nat
deriving DecidableEq, Repr

/-- `TaskWorkerApiClient::with_connection_timeout(uri, timeout)`. -/
def TaskWorkerApiClient.with_connection_timeout (uri : String) (t : Nat) : Client :=
  { uri := uri, connect_timeout_secs := t }

/-- `SafeTaskManagerRpcGateway { inner: Arc<Mutex<Option<Client>>>, host_addr }`.
`inner` holds the contents of the mutex-guarded option slot. -/
structure SafeTaskManagerRpcGateway where
  inner : Option Client
  host_addr : HostAddr
deriving DecidableEq, Repr

/-- `SafeTaskManagerRpcGateway::new`: the client is constructed eagerly, in
the constructor, and cached in the slot. -/
def SafeTaskManagerRpcGateway.new (host_addr : HostAddr) : SafeTaskManagerRpcGateway :=
  { inner := some (TaskWorkerApiClient.with_connection_timeout host_addr.as_uri
      DEFAULT_CONNECT_TIMEOUT),
    host_addr := host_addr }

/-- `SafeTaskManagerRpcGateway::with_connection_timeout`. -/
def SafeTaskManagerRpcGateway.with_connection_timeout (host_addr : HostAddr)
    (connect_timeout : Nat) : SafeTaskManagerRpcGateway :=
  { inner := some (TaskWorkerApiClient.with_connection_timeout host_addr.as_uri
      connect_timeout),
    host_addr := host_addr }

/-- `RpcGateway::get_host_addr`. -/
def SafeTaskManagerRpcGateway.get_host_addr (g : SafeTaskManagerRpcGateway) : HostAddr :=
  g.host_addr

/-- The `guard.get_or_insert_with(|| TaskWorkerApiClient::with_connection_timeout(
self.host_addr.as_uri(), DEFAULT_CONNECT_TIMEOUT))` step shared by every RPC
method of the gateway (`receive_ack`, `receive_heartbeat`,
`send_event_to_operator`, `stop_dataflow`, `create_sub_dataflow`).  Returns
the client used for the call, the updated gateway, and whether a new client
was created on this call. -/
def SafeTaskManagerRpcGateway.call_setup (g : SafeTaskManagerRpcGateway) :
    Client × SafeTaskManagerRpcGateway × Bool :=
  match g.inner with
  | some c => (c, g, false)
  | none =>
      let c := TaskWorkerApiClient.with_connection_timeout g.host_addr.as_uri
        DEFAULT_CONNECT_TIMEOUT
      (c, { g with inner := some c }, true)

/-- `SafeTaskManagerRpcGateway::close`:
`self.host_addr.clear(); drop(self.inner.as_ref())`.  Dropping a shared
reference is a no-op, so only `host_addr` changes. -/
def SafeTaskManagerRpcGateway.close (g : SafeTaskManagerRpcGateway) :
    SafeTaskManagerRpcGateway :=
  { g with host_addr := g.host_addr.clear }

/-! ### The cluster model

`common::net::cluster` is repository code that is not under `src/`; the
definitions in this subsection are modelled from the specification (§4.4). -/

/-- Modelled from the spec: worker lifecycle status. -/
inductive WorkerStatus where
  | Pending
  | Running
  | Unreachable
deriving DecidableEq, Repr, Inhabited

/-- Modelled from the spec: a worker record of the cluster registry. -/
structure Worker where
  addr : HostAddr
  status : WorkerStatus
deriving DecidableEq, Repr, Inhabited

/-- Modelled from the spec: the cluster holds one worker record per
configured node. -/
structure Cluster where
  workers : List Worker
deriving DecidableEq, Repr

/-- Modelled from the spec: the ordered list of workers currently in
`{Pending, Running}` (i.e. not `Unreachable`). -/
def Cluster.availableWorkers (c : Cluster) : List Worker :=
  c.workers.filter (fun w => decide (w.status ≠ WorkerStatus.Unreachable))

/-- Modelled from the spec: `Cluster::partition_dataflow` annotates the
operator at index `i` with worker `W[i mod |W|]` over the available workers
`W`, mutating only the `host_addr` annotations; in the source the method
returns nothing, so an empty `W` leaves the dataflow unchanged. -/
def Cluster.partition_dataflow (c : Cluster) (df : Dataflow) : Dataflow :=
  let avail := c.availableWorkers
  if avail.isEmpty then df
  else
    { df with
      nodes := df.nodes.mapIdx (fun i op =>
        { op with host_addr := some (avail.getD (i % avail.length) default).addr }) }

/-- Modelled from the spec: the outcomes of the cluster's fan-out RPC
operations (`Cluster::create_dataflow` deployment and
`Cluster::terminate_dataflow` stop-broadcast) depend on the network and are
supplied by the environment. -/
structure ClusterOutcomes where
  terminate_result : Except GStatus DataflowStatus
  deploy_result : Except GStatus Unit

/-! ### Dataflow validation

`Dataflow::validate` lives in the proto crate, which is not under `src/`. -/

/-- Kahn-style acyclicity check by repeated removal of vertices without
incoming edges among the remaining vertices; `fuel` bounds the iteration. -/
def acyclicAux : Nat → List Nat → List (Nat × Nat) → Bool
  | 0, verts, _ => verts.isEmpty
  | fuel + 1, verts, edges =>
      if verts.isEmpty then true
      else
        let hasIncoming := fun v =>
          edges.any (fun e => e.2 == v && verts.contains e.1)
        let removable := verts.filter (fun v => ! hasIncoming v)
        if removable.isEmpty then false
        else acyclicAux fuel (verts.filter (fun v => hasIncoming v)) edges

/-- Modelled from the spec: `Dataflow::validate` checks invariants (i)-(iv)
of §3 — `job_id` present, unique `executor_id`s, edges over declared
executors, acyclicity. -/
def Dataflow.validate (df : Dataflow) : Except String Unit :=
  let ids := df.nodes.map (fun op => op.executor_id)
  if df.job_id.isNone then Except.error "job_id is missing"
  else if ¬ ids.Nodup then Except.error "duplicate executor ids"
  else if ¬ (df.edges.all (fun e => ids.contains e.1 && ids.contains e.2)) then
    Except.error "edge endpoint not declared"
  else if ¬ (acyclicAux ids.length ids df.edges) then Except.error "cycle detected"
  else Except.ok ()

/-! ### The Coordinator (`coord.rs`)

The coordinator's observable side effects are recorded as an action trace so
that "no further action", "without saving or deploying" and "no worker RPCs"
are statable. -/

/-- One observable coordinator action. -/
inductive Action where
  | partitionStep
  | terminateCall (j : ResourceId)
  | mayExistsCheck
  | deleteStore
  | broadcastStop
  | saveStore
  | deploy
deriving DecidableEq, Repr

/-- `Coordinator { dataflow_storage, cluster }`. -/
structure Coordinator where
  dataflow_storage : DataflowStorageImpl
  cluster : Cluster

/-- The outcomes of the underlying store calls made during one coordinator
operation (consumed only by the persistent backend). -/
structure StorageIo where
  containsOk : Bool
  deleteOk : Bool
  saveOk : Bool

/-- `Coordinator::terminate_dataflow`: if `may_exists` is false, return
`Ok(Closed)`; otherwise delete from storage — mapping a storage error to
`tonic::Status::internal` and returning it — and only on a successful delete
broadcast stop through the cluster, returning the broadcast's result. -/
def Coordinator.terminate_dataflow (c : Coordinator) (job_id : ResourceId)
    (io : StorageIo) (env : ClusterOutcomes) :
    Except GStatus DataflowStatus × Coordinator × List Action :=
  if ¬ c.dataflow_storage.may_exists job_id io.containsOk then
    (Except.ok DataflowStatus.Closed, c, [Action.mayExistsCheck])
  else
    match c.dataflow_storage.delete job_id io.deleteOk with
    | Except.ok st' =>
        (env.terminate_result, { c with dataflow_storage := st' },
          [Action.mayExistsCheck, Action.deleteStore, Action.broadcastStop])
    | Except.error e =>
        (Except.error (GStatus.internal e.message), c,
          [Action.mayExistsCheck, Action.deleteStore])

/-- `Coordinator::create_dataflow`: validate (mapping a validation error to
`invalid_argument`), partition, call `terminate_dataflow` on the partitioned
dataflow's `job_id` (the `unwrap` of a missing id panics, rendered as
`none`), abort on a terminate error, save (mapping a storage error to
`internal`), abort on a save error, then deploy through the cluster. -/
def Coordinator.create_dataflow (c : Coordinator) (df : Dataflow)
    (io : StorageIo) (env : ClusterOutcomes) :
    Option (Except GStatus Unit × Coordinator × List Action) :=
  match df.validate with
  | Except.error err =>
      some (Except.error (GStatus.invalid_argument err), c, [])
  | Except.ok _ =>
      match (c.cluster.partition_dataflow df).job_id with
      | none => none
      | some j =>
          match c.terminate_dataflow j io env with
          | (Except.error e, c1, acts1) =>
              some (Except.error e, c1,
                Action.partitionStep :: Action.terminateCall j :: acts1)
          | (Except.ok _, c1, acts1) =>
              match c1.dataflow_storage.save (c.cluster.partition_dataflow df)
                  io.saveOk with
              | none => none
              | some (Except.error e) =>
                  some (Except.error (GStatus.internal e.message), c1,
                    Action.partitionStep :: Action.terminateCall j ::
                      acts1 ++ [Action.saveStore])
              | some (Except.ok st') =>
                  some (env.deploy_result, { c1 with dataflow_storage := st' },
                    Action.partitionStep :: Action.terminateCall j ::
                      acts1 ++ [Action.saveStore, Action.deploy])

/-- `Coordinator::get_dataflow`: read-through to storage. -/
def Coordinator.get_dataflow (c : Coordinator) (job_id : ResourceId)
    (ioOk : Bool) : Option Dataflow :=
  c.dataflow_storage.get job_id ioOk

/-! ### Storage operation sequences

Used to state "saved and not subsequently deleted" temporally: a run of the
storage API between the save of interest and the `may_exists` query. -/

/-- One storage API call together with the outcome of its underlying store
call. -/
inductive StorageOp where
  | save_op (df : Dataflow) (ioOk : Bool)
  | delete_op (j : ResourceId) (ioOk : Bool)
deriving DecidableEq

/-- Apply one storage call; a failed call leaves the store unchanged (both
backends' error paths return without mutating), and `none` propagates the
in-memory backend's panic on a missing `job_id`. -/
def applyOp (s : DataflowStorageImpl) : StorageOp → Option DataflowStorageImpl
  | StorageOp.save_op df io =>
      match s.save df io with
      | none => none
      | some (Except.ok s') => some s'
      | some (Except.error _) => some s
  | StorageOp.delete_op j io =>
      match s.delete j io with
      | Except.ok s' => some s'
      | Except.error _ => some s

/-- Run a sequence of storage calls. -/
def runOps (s : DataflowStorageImpl) : List StorageOp → Option DataflowStorageImpl
  | [] => some s
  | op :: rest =>
      match applyOp s op with
      | none => none
      | some s' => runOps s' rest

/-! ### The per-peer FIFO serialization discipline (C8)

Both gateway structs guard their client with one
`Arc<tokio::sync::Mutex<...>>` per peer, and every RPC method holds the lock
across the whole round trip (`let mut guard = self.inner.lock().await;`
stays live until the response is mapped).  Modelled from the spec and
tokio's documented fairness: the mutex is a FIFO-fair mutual-exclusion
token — `lock().await` enqueues the caller, and the token is granted to the
head of the wait queue when it is free.  Concurrency is embedded as an
interleaving step relation on an explicit state; logical time `now` stamps
the request, transport-call and release instants so that ordering is
statable. -/

/-- The phase of one calling task: not yet arrived, queued on the mutex,
holding the token before its transport call, holding the token after the
transport call began, or finished (token released after success or error). -/
inductive Phase where
  | idle
  | waiting
  | critical
  | called
  | finished
deriving DecidableEq, Repr

/-- The state of one gateway's mutex together with the calling tasks. -/
structure MutexState (T : Type) where
  owner : Option T
  queue : List T
  phase : T → Phase
  now : Nat
  reqT : T → Option Nat
  callT : T → Option Nat
  relT : T → Option Nat

/-- Pointwise function update. -/
def upd {T : Type} {α : Type} [DecidableEq T] (f : T → α) (t : T) (v : α) : T → α :=
  fun x => if x = t then v else f x

/-- An atomic step of the interleaving: a task issues its call (enqueues on
the mutex), the fair mutex grants the token to the queue head, the token
holder begins its underlying transport call, or the token holder finishes
its round trip and releases the token. -/
inductive GwAct (T : Type) where
  | request (t : T)
  | grant (t : T)
  | transport (t : T)
  | release (t : T)

/-- Guarded small-step semantics; `none` when the guard fails. -/
def applyGwAct {T : Type} [DecidableEq T] (s : MutexState T) :
    GwAct T → Option (MutexState T)
  | GwAct.request t =>
      if s.phase t = Phase.idle then
        some { s with
          phase := upd s.phase t Phase.waiting,
          queue := s.queue ++ [t],
          reqT := upd s.reqT t (some s.now),
          now := s.now + 1 }
      else none
  | GwAct.grant t =>
      if s.owner = none ∧ s.queue.head? = some t then
        some { s with
          owner := some t,
          queue := s.queue.tail,
          phase := upd s.phase t Phase.critical,
          now := s.now + 1 }
      else none
  | GwAct.transport t =>
      if s.owner = some t ∧ s.phase t = Phase.critical then
        some { s with
          phase := upd s.phase t Phase.called,
          callT := upd s.callT t (some s.now),
          now := s.now + 1 }
      else none
  | GwAct.release t =>
      if s.owner = some t ∧ s.phase t = Phase.called then
        some { s with
          owner := none,
          phase := upd s.phase t Phase.finished,
          relT := upd s.relT t (some s.now),
          now := s.now + 1 }
      else none

/-- The initial state: token free, no queued task, nothing issued. -/
def initState (T : Type) : MutexState T :=
  { owner := none, queue := [], phase := fun _ => Phase.idle,
    now := 0, reqT := fun _ => none, callT := fun _ => none,
    relT := fun _ => none }

/-- Run a sequence of steps from a state. -/
def runGw {T : Type} [DecidableEq T] (s : MutexState T) :
    List (GwAct T) → Option (MutexState T)
  | [] => some s
  | a :: rest =>
      match applyGwAct s a with
      | none => none
      | some s' => runGw s' rest

/-- Task `t` issued its request strictly before task `u`. -/
def reqBefore {T : Type} (s : MutexState T) (t u : T) : Prop :=
  ∃ x y, s.reqT t = some x ∧ s.reqT u = some y ∧ x < y

/-- `t` holds the mutual-exclusion token (is inside its round trip). -/
def holdsToken {T : Type} (s : MutexState T) (t : T) : Prop :=
  s.phase t = Phase.critical ∨ s.phase t = Phase.called

/-- `t` was granted the token at some point (it is in, or past, its round
trip). -/
def everGranted {T : Type} (s : MutexState T) (t : T) : Prop :=
  s.phase t = Phase.critical ∨ s.phase t = Phase.called ∨ s.phase t = Phase.finished

/-- The inductive invariant of the gateway's mutex discipline. -/
structure GwInv {T : Type} [DecidableEq T] (s : MutexState T) : Prop where
  owner_phase : ∀ t, s.owner = some t ↔ holdsToken s t
  queue_phase : ∀ t, t ∈ s.queue ↔ s.phase t = Phase.waiting
  queue_nodup : s.queue.Nodup
  queue_sorted : s.queue.Pairwise (reqBefore s)
  reqT_iff : ∀ t, (s.reqT t).isSome ↔ s.phase t ≠ Phase.idle
  callT_iff : ∀ t, (s.callT t).isSome ↔
      (s.phase t = Phase.called ∨ s.phase t = Phase.finished)
  relT_iff : ∀ t, (s.relT t).isSome ↔ s.phase t = Phase.finished
  times_lt_now : ∀ t x,
      (s.reqT t = some x ∨ s.callT t = some x ∨ s.relT t = some x) → x < s.now
  fifo_key : ∀ t u, reqBefore s t u → everGranted s u → s.phase t = Phase.finished
  call_after_rel : ∀ t u, reqBefore s t u → ∀ tc, s.callT u = some tc →
      ∃ tr, s.relT t = some tr ∧ tr < tc

/-! ### Concrete values used by witnesses and counterexamples -/

/-- A concrete job id. -/
def jA : ResourceId := { resource_id := "job-a", namespace_id := "ns" }

/-- Another concrete job id. -/
def jB : ResourceId := { resource_id := "job-b", namespace_id := "ns" }

/-- A concrete dataflow with a present job id and no operators. -/
def dfA : Dataflow := { job_id := some jA, nodes := [], edges := [] }

/-- A concrete dataflow with the same job id and a different operator set. -/
def dfB : Dataflow :=
  { job_id := some jA, nodes := [{ executor_id := 0, payload := "map", host_addr := none }],
    edges := [] }

/-- A concrete dataflow with a missing job id. -/
def dfNoId : Dataflow := { job_id := none, nodes := [], edges := [] }

/-- A concrete worker address. -/
def addrW : HostAddr := { host := "worker-1", port := 8080 }

/-- A one-worker cluster. -/
def clusterW : Cluster := { workers := [{ addr := addrW, status := WorkerStatus.Pending }] }

/-- A fully successful environment for coordinator runs. -/
def envOk : ClusterOutcomes :=
  { terminate_result := Except.ok DataflowStatus.Closed,
    deploy_result := Except.ok () }

/-- Store I/O outcomes with every call succeeding. -/
def ioAllOk : StorageIo := { containsOk := true, deleteOk := true, saveOk := true }

/-- Two tasks issue overlapping calls through one gateway: the first
requests, the second requests, then the rounds are served in order. -/
def demoActs : List (GwAct Bool) :=
  [GwAct.request false, GwAct.request true, GwAct.grant false,
   GwAct.transport false, GwAct.release false, GwAct.grant true,
   GwAct.transport true]

/-- The state reached by `demoActs`. -/
def demoFinal : MutexState Bool :=
  (runGw (initState Bool) demoActs).getD (initState Bool)

/-! ## Helper lemmas -/

theorem SledDb.lookup_insertKV (db : SledDb) (k k' : ResourceId) (v : StoredBytes) :
    (db.insertKV k v).lookup k' = if k = k' then some v else db.lookup k' := by
  induction db with
  | nil => simp [SledDb.insertKV, SledDb.lookup]
  | cons hd tl ih =>
      obtain ⟨a, b⟩ := hd
      by_cases hak : a = k
      · subst hak
        simp only [SledDb.insertKV, if_pos rfl, SledDb.lookup]
        by_cases hkk : a = k' <;> simp [hkk]
      · simp only [SledDb.insertKV, if_neg hak, SledDb.lookup, ih]
        by_cases hak' : a = k'
        · subst hak'
          have : ¬ k = a := fun h => hak h.symm
          simp [this]
        · simp [hak']

theorem SledDb.lookup_removeKey (db : SledDb) (k k' : ResourceId) :
    (db.removeKey k).lookup k' = if k = k' then none else db.lookup k' := by
  induction db with
  | nil => simp [SledDb.removeKey, SledDb.lookup]
  | cons hd tl ih =>
      obtain ⟨a, b⟩ := hd
      by_cases hak : a = k
      · subst hak
        simp only [SledDb.removeKey, if_true]
        rw [ih]
        by_cases hkk : a = k' <;> simp [SledDb.lookup, hkk]
      · simp only [SledDb.removeKey, if_neg hak, SledDb.lookup, ih]
        by_cases hak' : a = k'
        · subst hak'
          have : ¬ k = a := fun h => hak h.symm
          simp [this]
        · simp [hak']

theorem MemCache.mem_lookup_insertKV (c : MemCache) (k k' : HashedResourceId) (v : Dataflow) :
    (c.insertKV k v).lookup k' = if k = k' then some v else c.lookup k' := by
  induction c with
  | nil => simp [MemCache.insertKV, MemCache.lookup]
  | cons hd tl ih =>
      obtain ⟨a, b⟩ := hd
      by_cases hak : a = k
      · subst hak
        simp only [MemCache.insertKV, if_pos rfl, MemCache.lookup]
        by_cases hkk : a = k' <;> simp [hkk]
      · simp only [MemCache.insertKV, if_neg hak, MemCache.lookup, ih]
        by_cases hak' : a = k'
        · subst hak'
          have : ¬ k = a := fun h => hak h.symm
          simp [this]
        · simp [hak']

theorem MemCache.mem_lookup_removeKey (c : MemCache) (k k' : HashedResourceId) :
    (c.removeKey k).lookup k' = if k = k' then none else c.lookup k' := by
  induction c with
  | nil => simp [MemCache.removeKey, MemCache.lookup]
  | cons hd tl ih =>
      obtain ⟨a, b⟩ := hd
      by_cases hak : a = k
      · subst hak
        simp only [MemCache.removeKey, if_true]
        rw [ih]
        by_cases hkk : a = k' <;> simp [MemCache.lookup, hkk]
      · simp only [MemCache.removeKey, if_neg hak, MemCache.lookup, ih]
        by_cases hak' : a = k'
        · subst hak'
          have : ¬ k = a := fun h => hak h.symm
          simp [this]
        · simp [hak']

/-- Hash keys are collision-free in the model. -/
theorem HashedResourceId.fromId_inj {a b : ResourceId}
    (h : HashedResourceId.fromId a = HashedResourceId.fromId b) : a = b := by
  cases h; rfl

/-- Core save/get law shared by the storage theorems: a successful save makes
`get` (with a successful read) return exactly the saved dataflow. -/
theorem storage_save_then_get (s : DataflowStorageImpl) (df : Dataflow)
    (j : ResourceId) (io : Bool) (s' : DataflowStorageImpl)
    (hjob : df.job_id = some j)
    (hsave : s.save df io = some (Except.ok s')) :
    s'.get j true = some df := by
  cases s with
  | Persist st =>
      cases io with
      | false =>
          simp [DataflowStorageImpl.save, PersistDataflowStorage.save,
            Except.map] at hsave
      | true =>
          simp only [DataflowStorageImpl.save, PersistDataflowStorage.save,
            if_pos trivial, Except.map, Option.some.injEq] at hsave
          obtain ⟨rfl⟩ := hsave
          simp [DataflowStorageImpl.get, PersistDataflowStorage.get,
            SledDb.lookup_insertKV, hjob, decodeDataflow]
  | Memory st =>
      simp only [DataflowStorageImpl.save, MemDataflowStorage.save, hjob,
        Except.map, Option.map, Option.some.injEq] at hsave
      obtain ⟨rfl⟩ := hsave
      simp [DataflowStorageImpl.get, MemDataflowStorage.get,
        MemCache.mem_lookup_insertKV]

/-- A successful save makes `may_exists` (with a successful membership
check) report the key. -/
theorem storage_save_then_may_exists (s : DataflowStorageImpl) (df : Dataflow)
    (j : ResourceId) (io : Bool) (s' : DataflowStorageImpl)
    (hjob : df.job_id = some j)
    (hsave : s.save df io = some (Except.ok s')) :
    s'.may_exists j true = true := by
  cases s with
  | Persist st =>
      cases io with
      | false =>
          simp [DataflowStorageImpl.save, PersistDataflowStorage.save,
            Except.map] at hsave
      | true =>
          simp only [DataflowStorageImpl.save, PersistDataflowStorage.save,
            if_pos trivial, Except.map, Option.some.injEq] at hsave
          obtain ⟨rfl⟩ := hsave
          simp [DataflowStorageImpl.may_exists, PersistDataflowStorage.may_exists,
            SledDb.lookup_insertKV, hjob]
  | Memory st =>
      simp only [DataflowStorageImpl.save, MemDataflowStorage.save, hjob,
        Except.map, Option.map, Option.some.injEq] at hsave
      obtain ⟨rfl⟩ := hsave
      simp [DataflowStorageImpl.may_exists, MemDataflowStorage.may_exists,
        MemCache.mem_lookup_insertKV]

/-- Any successful save preserves the presence of any already-present key
(upserts never remove entries). -/
theorem storage_save_preserves_key (s : DataflowStorageImpl) (df : Dataflow)
    (io : Bool) (s' : DataflowStorageImpl) (j : ResourceId)
    (hsave : s.save df io = some (Except.ok s'))
    (hkey : s.may_exists j true = true) :
    s'.may_exists j true = true := by
  cases s with
  | Persist st =>
      cases io with
      | false =>
          simp [DataflowStorageImpl.save, PersistDataflowStorage.save,
            Except.map] at hsave
      | true =>
          simp only [DataflowStorageImpl.save, PersistDataflowStorage.save,
            if_pos trivial, Except.map, Option.some.injEq] at hsave
          obtain ⟨rfl⟩ := hsave
          simp only [DataflowStorageImpl.may_exists,
            PersistDataflowStorage.may_exists] at hkey ⊢
          rw [if_pos trivial] at hkey ⊢
          rw [SledDb.lookup_insertKV]
          by_cases h : df.job_id.getD default = j
          · simp [h]
          · simpa [h] using hkey
  | Memory st =>
      cases hjob : df.job_id with
      | none =>
          simp [DataflowStorageImpl.save, MemDataflowStorage.save, hjob] at hsave
      | some j2 =>
          simp only [DataflowStorageImpl.save, MemDataflowStorage.save, hjob,
            Except.map, Option.map, Option.some.injEq] at hsave
          obtain ⟨rfl⟩ := hsave
          simp only [DataflowStorageImpl.may_exists,
            MemDataflowStorage.may_exists] at hkey ⊢
          rw [MemCache.mem_lookup_insertKV]
          by_cases h : HashedResourceId.fromId j2 = HashedResourceId.fromId j
          · simp [h]
          · simpa [h] using hkey

/-- A successful delete of a *different* key preserves the presence of `j`
(hash keys are collision-free in the model). -/
theorem storage_delete_preserves_other_key (s : DataflowStorageImpl)
    (j2 : ResourceId) (io : Bool) (s' : DataflowStorageImpl) (j : ResourceId)
    (hne : j2 ≠ j)
    (hdel : s.delete j2 io = Except.ok s')
    (hkey : s.may_exists j true = true) :
    s'.may_exists j true = true := by
  cases s with
  | Persist st =>
      cases io with
      | false =>
          simp [DataflowStorageImpl.delete, PersistDataflowStorage.delete,
            Except.map] at hdel
      | true =>
          simp only [DataflowStorageImpl.delete, PersistDataflowStorage.delete,
            if_pos trivial, Except.map, Except.ok.injEq] at hdel
          subst hdel
          simp only [DataflowStorageImpl.may_exists,
            PersistDataflowStorage.may_exists] at hkey ⊢
          rw [if_pos trivial] at hkey ⊢
          rw [SledDb.lookup_removeKey]
          simpa [hne] using hkey
  | Memory st =>
      simp only [DataflowStorageImpl.delete, MemDataflowStorage.delete,
        Except.map, Except.ok.injEq] at hdel
      subst hdel
      simp only [DataflowStorageImpl.may_exists,
        MemDataflowStorage.may_exists] at hkey ⊢
      rw [MemCache.mem_lookup_removeKey]
      have h : HashedResourceId.fromId j2 ≠ HashedResourceId.fromId j :=
        fun h => hne (HashedResourceId.fromId_inj h)
      simpa [h] using hkey

/-- One storage call that is not a delete of `j` preserves the presence of
`j`. -/
theorem applyOp_preserves_key (s s1 : DataflowStorageImpl) (op : StorageOp)
    (j : ResourceId)
    (hop : ∀ io', op ≠ StorageOp.delete_op j io')
    (hap : applyOp s op = some s1)
    (hkey : s.may_exists j true = true) :
    s1.may_exists j true = true := by
  cases op with
  | save_op df io =>
      cases hs : s.save df io with
      | none => simp [applyOp, hs] at hap
      | some r =>
          cases r with
          | error e =>
              simp only [applyOp, hs, Option.some.injEq] at hap
              exact hap ▸ hkey
          | ok s' =>
              simp only [applyOp, hs, Option.some.injEq] at hap
              exact hap ▸ storage_save_preserves_key s df io s' j hs hkey
  | delete_op j2 io =>
      have hne : j2 ≠ j := by
        intro h
        subst h
        exact hop io rfl
      cases hd : s.delete j2 io with
      | error e =>
          simp only [applyOp, hd, Option.some.injEq] at hap
          exact hap ▸ hkey
      | ok s' =>
          simp only [applyOp, hd, Option.some.injEq] at hap
          exact hap ▸ storage_delete_preserves_other_key s j2 io s' j hne hd hkey

/-- A run of storage calls containing no delete of `j` preserves the
presence of `j`. -/
theorem runOps_preserves_key (post : List StorageOp) :
    ∀ s s2 : DataflowStorageImpl, ∀ j : ResourceId,
      (∀ io', StorageOp.delete_op j io' ∉ post) →
      runOps s post = some s2 → s.may_exists j true = true →
      s2.may_exists j true = true := by
  induction post with
  | nil =>
      intro s s2 j _ hrun hkey
      simp only [runOps, Option.some.injEq] at hrun
      exact hrun ▸ hkey
  | cons op rest ih =>
      intro s s2 j hpost hrun hkey
      cases hap : applyOp s op with
      | none => simp [runOps, hap] at hrun
      | some s1 =>
          simp only [runOps, hap] at hrun
          have hop : ∀ io', op ≠ StorageOp.delete_op j io' := by
            intro io' h
            exact hpost io' (h ▸ List.mem_cons_self op rest)
          have hpost' : ∀ io', StorageOp.delete_op j io' ∉ rest := by
            intro io' h
            exact hpost io' (List.mem_cons_of_mem op h)
          exact ih s1 s2 j hpost' hrun
            (applyOp_preserves_key s s1 op j hop hap hkey)

/-! ## Claim theorems -/

/-- C4: for every dataflow with a present `job_id` and every storage backend,
after a successful `save(df)`, `get(df.job_id)` returns `Some(df)` (stored
bytes are the canonical encoding, so structural equality is byte identity),
and a second save with the same `job_id` replaces the first (upsert). -/
theorem C4_save_get_upsert (s s' s'' : DataflowStorageImpl) (df df2 : Dataflow)
    (j : ResourceId) (io io2 : Bool)
    (hjob : df.job_id = some j)
    (hsave : s.save df io = some (Except.ok s')) :
    s'.get j true = some df ∧
    (df2.job_id = some j → s'.save df2 io2 = some (Except.ok s'') →
      s''.get j true = some df2) :=
  ⟨storage_save_then_get s df j io s' hjob hsave,
   fun h2 hs2 => storage_save_then_get s' df2 j io2 s'' h2 hs2⟩

/-- Witness for C4 at a concrete store and two concrete dataflows. -/
theorem C4_save_get_upsert_witness :
    DataflowStorageImpl.get
      (DataflowStorageImpl.Memory ⟨[(HashedResourceId.fromId jA, dfA)]⟩) jA true
      = some dfA ∧
    DataflowStorageImpl.get
      (DataflowStorageImpl.Memory ⟨[(HashedResourceId.fromId jA, dfB)]⟩) jA true
      = some dfB := by
  have h := C4_save_get_upsert (DataflowStorageImpl.Memory ⟨[]⟩)
    (DataflowStorageImpl.Memory ⟨[(HashedResourceId.fromId jA, dfA)]⟩)
    (DataflowStorageImpl.Memory ⟨[(HashedResourceId.fromId jA, dfB)]⟩)
    dfA dfB jA true true rfl rfl
  exact ⟨h.1, h.2 rfl rfl⟩

/-- C5: for every `job_id` and every storage backend (given the underlying
store call succeeds), deleting an absent key succeeds and two consecutive
deletes both succeed. -/
theorem C5_delete_idempotent (s : DataflowStorageImpl) (j : ResourceId) :
    (s.may_exists j true = false → ∃ s', s.delete j true = Except.ok s') ∧
    (∀ s', s.delete j true = Except.ok s' →
      ∃ s'', s'.delete j true = Except.ok s'') := by
  have total : ∀ t : DataflowStorageImpl, ∃ t', t.delete j true = Except.ok t' := by
    intro t
    cases t with
    | Persist st => exact ⟨_, rfl⟩
    | Memory st => exact ⟨_, rfl⟩
  exact ⟨fun _ => total s, fun s' _ => total s'⟩

/-- Witness for C5 on the empty in-memory store. -/
theorem C5_delete_idempotent_witness :
    DataflowStorageImpl.may_exists (DataflowStorageImpl.Memory ⟨[]⟩) jA true = false ∧
    ∃ s', DataflowStorageImpl.delete (DataflowStorageImpl.Memory ⟨[]⟩) jA true
      = Except.ok s' :=
  ⟨rfl, (C5_delete_idempotent (DataflowStorageImpl.Memory ⟨[]⟩) jA).1 rfl⟩

/-- C9: for every dataflow with a present `job_id` the in-memory `save`
returns `Ok` (the `unwrap` is unreachable), whereas a missing `job_id` makes
it panic (`none`) rather than return an error. -/
theorem C9_mem_save_totality (st : MemDataflowStorage) (df : Dataflow) :
    (∀ j, df.job_id = some j →
      st.save df = some (Except.ok
        ⟨st.cache.insertKV (HashedResourceId.fromId j) df⟩)) ∧
    (df.job_id = none → st.save df = none) := by
  constructor
  · intro j hj
    simp [MemDataflowStorage.save, hj]
  · intro hj
    simp [MemDataflowStorage.save, hj]

/-- Witness for C9 on the empty in-memory store. -/
theorem C9_mem_save_totality_witness :
    MemDataflowStorage.save ⟨[]⟩ dfA
      = some (Except.ok ⟨MemCache.insertKV [] (HashedResourceId.fromId jA) dfA⟩) ∧
    MemDataflowStorage.save ⟨[]⟩ dfNoId = none :=
  ⟨(C9_mem_save_totality ⟨[]⟩ dfA).1 jA rfl,
   (C9_mem_save_totality ⟨[]⟩ dfNoId).2 rfl⟩

/-- C3 fails as stated: the persistent backend's `may_exists` is
`contains_key(..).unwrap_or(false)`, so when the underlying store call
reports an error it returns `false` even for a key that a successful `save`
just stored and that was never deleted — the claim forbids exactly this. -/
theorem C3_counterexample :
    PersistDataflowStorage.save ⟨[]⟩ dfA true
      = Except.ok ⟨[(jA, StoredBytes.enc dfA)]⟩ ∧
    PersistDataflowStorage.may_exists ⟨[(jA, StoredBytes.enc dfA)]⟩ jA false = false :=
  ⟨rfl, rfl⟩

/-- C6 fails as stated: corrupt stored bytes are swallowed by `.ok()` inside
the `Ok` branch of `PersistDataflowStorage::get`, so no error is reported or
logged (the logging flag is `false`), although `none` is returned as the
claim says. -/
theorem C6_counterexample :
    PersistDataflowStorage.get ⟨[(jA, StoredBytes.raw [0])]⟩ jA true
      = (none, false) := rfl

/-- C6 amended: `get` returns the last saved dataflow or none; corrupt
stored bytes surface as none with the decode error silently discarded (no
error is logged); a backend read error is logged and surfaces as none. -/
theorem C6_amended_persist_get (st : PersistDataflowStorage)
    (st' : PersistDataflowStorage) (df : Dataflow) (j : ResourceId)
    (junk : List Nat) :
    (df.job_id = some j → st.save df true = Except.ok st' →
      st'.get j true = (some df, false)) ∧
    (st.db.lookup j = some (StoredBytes.raw junk) →
      st.get j true = (none, false)) ∧
    (st.get j false = (none, true)) ∧
    (st.db.lookup j = none → st.get j true = (none, false)) := by
  refine ⟨?_, ?_, rfl, ?_⟩
  · intro hjob hsave
    simp only [PersistDataflowStorage.save, if_pos trivial, Except.ok.injEq] at hsave
    subst hsave
    simp [PersistDataflowStorage.get, SledDb.lookup_insertKV, hjob, decodeDataflow]
  · intro hl
    simp [PersistDataflowStorage.get, hl, decodeDataflow]
  · intro hl
    simp [PersistDataflowStorage.get, hl]

/-- Witness for C6 (amended) on concrete stores. -/
theorem C6_amended_persist_get_witness :
    PersistDataflowStorage.get ⟨[(jA, StoredBytes.raw [0])]⟩ jA true = (none, false) ∧
    PersistDataflowStorage.get ⟨[]⟩ jA false = (none, true) ∧
    PersistDataflowStorage.get ⟨[]⟩ jA true = (none, false) ∧
    PersistDataflowStorage.get ⟨[(jA, StoredBytes.enc dfA)]⟩ jA true = (some dfA, false) := by
  have h1 := C6_amended_persist_get ⟨[(jA, StoredBytes.raw [0])]⟩
    ⟨[(jA, StoredBytes.enc dfA)]⟩ dfA jA [0]
  have h2 := C6_amended_persist_get ⟨[]⟩ ⟨[(jA, StoredBytes.enc dfA)]⟩ dfA jA [0]
  exact ⟨h1.2.1 rfl, h2.2.2.1, h2.2.2.2 rfl, h2.1 rfl rfl⟩

/-- C7 fails as stated: the worker gateway's constructor creates the client
eagerly, so the first call after construction creates nothing
(`call_setup`'s created-new flag is `false`), and `close()` leaves the
cached client slot untouched, so the next call after `close()` creates
nothing either — no reconnect occurs. -/
theorem C7_counterexample :
    (SafeTaskManagerRpcGateway.new addrW).call_setup.2.2 = false ∧
    (SafeTaskManagerRpcGateway.new addrW).close.call_setup.2.2 = false ∧
    (SafeTaskManagerRpcGateway.new addrW).close.inner
      = (SafeTaskManagerRpcGateway.new addrW).inner :=
  ⟨rfl, rfl, rfl⟩

/-- C7 amended: the worker gateway's channel is created eagerly at
construction and cached; an RPC call creates a channel only when the cached
slot is empty; `close()` does not invalidate the cache, so no reconnect
occurs on the call after `close()`. -/
theorem C7_amended_connection_lifecycle (a : HostAddr)
    (g : SafeTaskManagerRpcGateway) :
    (SafeTaskManagerRpcGateway.new a).inner
      = some (TaskWorkerApiClient.with_connection_timeout a.as_uri
          DEFAULT_CONNECT_TIMEOUT) ∧
    g.close.inner = g.inner ∧
    (∀ c, g.inner = some c → g.call_setup = (c, g, false)) ∧
    (g.inner = none →
      g.call_setup
        = (TaskWorkerApiClient.with_connection_timeout g.host_addr.as_uri
             DEFAULT_CONNECT_TIMEOUT,
           { g with inner := some (TaskWorkerApiClient.with_connection_timeout
               g.host_addr.as_uri DEFAULT_CONNECT_TIMEOUT) },
           true)) := by
  refine ⟨rfl, rfl, ?_, ?_⟩
  · intro c hc
    simp [SafeTaskManagerRpcGateway.call_setup, hc]
  · intro hc
    simp [SafeTaskManagerRpcGateway.call_setup, hc]

/-- Witness for C7 (amended) at a concrete address. -/
theorem C7_amended_connection_lifecycle_witness :
    (SafeTaskManagerRpcGateway.new addrW).call_setup
      = (TaskWorkerApiClient.with_connection_timeout addrW.as_uri
           DEFAULT_CONNECT_TIMEOUT,
         SafeTaskManagerRpcGateway.new addrW, false) :=
  (C7_amended_connection_lifecycle addrW
    (SafeTaskManagerRpcGateway.new addrW)).2.2.1 _ rfl

/-- C10: `close()` mutates only `host_addr` (clearing it) and neither drops
nor replaces the cached channel; `get_host_addr` afterwards returns the
cleared address, and a call that did reconnect (empty cache) would build its
client from the cleared address's URI. -/
theorem C10_close_frame (g : SafeTaskManagerRpcGateway) :
    g.close = { inner := g.inner, host_addr := g.host_addr.clear } ∧
    g.close.inner = g.inner ∧
    g.close.get_host_addr = g.host_addr.clear ∧
    (g.inner = none → g.close.call_setup.1
      = TaskWorkerApiClient.with_connection_timeout (g.host_addr.clear).as_uri
          DEFAULT_CONNECT_TIMEOUT) := by
  refine ⟨rfl, rfl, rfl, ?_⟩
  intro h
  simp [SafeTaskManagerRpcGateway.close, SafeTaskManagerRpcGateway.call_setup, h]

/-- Witness for C10 at a concrete gateway state with an empty cache. -/
theorem C10_close_frame_witness :
    (SafeTaskManagerRpcGateway.close ⟨none, addrW⟩).call_setup.1
      = TaskWorkerApiClient.with_connection_timeout (HostAddr.clear addrW).as_uri
          DEFAULT_CONNECT_TIMEOUT :=
  (C10_close_frame ⟨none, addrW⟩).2.2.2 rfl

/-- C3 amended: a key stored by a successful `save` and not subsequently
deleted is reported by `may_exists` *provided the underlying membership
check succeeds* (this holds unconditionally for the in-memory backend, which
ignores the I/O outcome); when the persistent backend's `contains_key` call
fails, `may_exists` returns `false` even for such a key
(see `C3_counterexample`). -/
theorem C3_amended_may_exists (s s1 s2 : DataflowStorageImpl) (df : Dataflow)
    (j : ResourceId) (io : Bool) (post : List StorageOp)
    (hjob : df.job_id = some j)
    (hsave : s.save df io = some (Except.ok s1))
    (hpost : ∀ io', StorageOp.delete_op j io' ∉ post)
    (hrun : runOps s1 post = some s2) :
    s2.may_exists j true = true :=
  runOps_preserves_key post s1 s2 j hpost hrun
    (storage_save_then_may_exists s df j io s1 hjob hsave)

/-- Witness for C3 (amended): save on the empty in-memory store, then an
unrelated delete, then the membership check. -/
theorem C3_amended_may_exists_witness :
    DataflowStorageImpl.may_exists
      (DataflowStorageImpl.Memory ⟨[(HashedResourceId.fromId jA, dfA)]⟩)
      jA true = true :=
  C3_amended_may_exists (DataflowStorageImpl.Memory ⟨[]⟩)
    (DataflowStorageImpl.Memory ⟨[(HashedResourceId.fromId jA, dfA)]⟩)
    (DataflowStorageImpl.Memory ⟨[(HashedResourceId.fromId jA, dfA)]⟩)
    dfA jA true [StorageOp.delete_op jB true] rfl rfl
    (fun io' h => by
      simp only [List.mem_singleton, StorageOp.delete_op.injEq] at h
      exact absurd h.1 (by decide))
    rfl

/-- `Coordinator::terminate_dataflow` never saves or deploys: its trace
holds only the membership check, the storage delete and the stop
broadcast. -/
theorem terminate_trace_actions (c : Coordinator) (j : ResourceId)
    (io : StorageIo) (env : ClusterOutcomes) :
    Action.saveStore ∉ (c.terminate_dataflow j io env).2.2 ∧
    Action.deploy ∉ (c.terminate_dataflow j io env).2.2 := by
  unfold Coordinator.terminate_dataflow
  split
  · constructor <;> simp
  · split
    · constructor <;> simp
    · constructor <;> simp

/-- C2: `terminate_dataflow` returns `Closed` with no storage delete and no
worker RPC when `may_exists` is false (the trace is just the membership
check); otherwise it deletes first, returning the delete error (as an
internal status carrying its message) without broadcasting when the delete
fails, and broadcasts stop through the cluster only after a successful
delete. -/
theorem C2_terminate_dataflow (c : Coordinator) (j : ResourceId)
    (io : StorageIo) (env : ClusterOutcomes) :
    (c.dataflow_storage.may_exists j io.containsOk = false →
      c.terminate_dataflow j io env
        = (Except.ok DataflowStatus.Closed, c, [Action.mayExistsCheck])) ∧
    (c.dataflow_storage.may_exists j io.containsOk = true →
      (∀ e, c.dataflow_storage.delete j io.deleteOk = Except.error e →
        c.terminate_dataflow j io env
          = (Except.error (GStatus.internal e.message), c,
             [Action.mayExistsCheck, Action.deleteStore])) ∧
      (∀ st', c.dataflow_storage.delete j io.deleteOk = Except.ok st' →
        c.terminate_dataflow j io env
          = (env.terminate_result, { c with dataflow_storage := st' },
             [Action.mayExistsCheck, Action.deleteStore,
              Action.broadcastStop]))) := by
  constructor
  · intro hm
    simp [Coordinator.terminate_dataflow, hm]
  · intro hm
    constructor
    · intro e he
      simp [Coordinator.terminate_dataflow, hm, he]
    · intro st' hd
      simp [Coordinator.terminate_dataflow, hm, hd]

/-- Witness for C2: terminating an unknown job on an empty store returns
`Closed` with no delete and no broadcast. -/
theorem C2_terminate_dataflow_witness :
    Coordinator.terminate_dataflow
      { dataflow_storage := DataflowStorageImpl.Memory ⟨[]⟩, cluster := clusterW }
      jA ioAllOk envOk
      = (Except.ok DataflowStatus.Closed,
         { dataflow_storage := DataflowStorageImpl.Memory ⟨[]⟩,
           cluster := clusterW },
         [Action.mayExistsCheck]) :=
  (C2_terminate_dataflow
    { dataflow_storage := DataflowStorageImpl.Memory ⟨[]⟩, cluster := clusterW }
    jA ioAllOk envOk).1 rfl

/-- C1: `create_dataflow` performs validate, partition, unconditional
terminate on the partitioned dataflow's `job_id`, save, deploy — in that
order; a validation failure returns `invalid_argument` with no further
action; a terminate error aborts with that error before any save or deploy;
a save failure aborts with an internal error before any deploy; otherwise
the cluster deployment's result is returned. -/
theorem C1_create_dataflow_steps (c : Coordinator) (df : Dataflow)
    (io : StorageIo) (env : ClusterOutcomes) :
    (∀ msg, df.validate = Except.error msg →
      c.create_dataflow df io env
        = some (Except.error (GStatus.invalid_argument msg), c, [])) ∧
    (∀ j, df.validate = Except.ok () →
      (c.cluster.partition_dataflow df).job_id = some j →
      (∀ e c1 tr, c.terminate_dataflow j io env = (Except.error e, c1, tr) →
        c.create_dataflow df io env
          = some (Except.error e, c1,
              Action.partitionStep :: Action.terminateCall j :: tr) ∧
        Action.saveStore ∉ tr ∧ Action.deploy ∉ tr) ∧
      (∀ st c1 tr, c.terminate_dataflow j io env = (Except.ok st, c1, tr) →
        (∀ e, c1.dataflow_storage.save (c.cluster.partition_dataflow df)
            io.saveOk = some (Except.error e) →
          c.create_dataflow df io env
            = some (Except.error (GStatus.internal e.message), c1,
                Action.partitionStep :: Action.terminateCall j ::
                  tr ++ [Action.saveStore]) ∧
          Action.deploy ∉ tr) ∧
        (∀ s2, c1.dataflow_storage.save (c.cluster.partition_dataflow df)
            io.saveOk = some (Except.ok s2) →
          c.create_dataflow df io env
            = some (env.deploy_result, { c1 with dataflow_storage := s2 },
                Action.partitionStep :: Action.terminateCall j ::
                  tr ++ [Action.saveStore, Action.deploy])))) := by
  constructor
  · intro msg hval
    simp [Coordinator.create_dataflow, hval]
  · intro j hval hjob
    constructor
    · intro e c1 tr hterm
      have htr := terminate_trace_actions c j io env
      rw [hterm] at htr
      refine ⟨?_, htr.1, htr.2⟩
      simp [Coordinator.create_dataflow, hval, hjob, hterm]
    · intro st c1 tr hterm
      have htr := terminate_trace_actions c j io env
      rw [hterm] at htr
      constructor
      · intro e hsv
        refine ⟨?_, htr.2⟩
        simp [Coordinator.create_dataflow, hval, hjob, hterm, hsv]
      · intro s2 hsv
        simp [Coordinator.create_dataflow, hval, hjob, hterm, hsv]

/-- Witness for C1: a full successful submission on a one-worker cluster and
an empty in-memory store runs
partition, terminate (membership check only), save, deploy. -/
theorem C1_create_dataflow_steps_witness :
    Coordinator.create_dataflow
      { dataflow_storage := DataflowStorageImpl.Memory ⟨[]⟩, cluster := clusterW }
      dfA ioAllOk envOk
      = some (Except.ok (),
          { dataflow_storage := DataflowStorageImpl.Memory
              ⟨[(HashedResourceId.fromId jA, dfA)]⟩,
            cluster := clusterW },
          [Action.partitionStep, Action.terminateCall jA, Action.mayExistsCheck,
           Action.saveStore, Action.deploy]) := by
  have h := ((C1_create_dataflow_steps
      { dataflow_storage := DataflowStorageImpl.Memory ⟨[]⟩, cluster := clusterW }
      dfA ioAllOk envOk).2 jA rfl rfl).2
      DataflowStatus.Closed
      { dataflow_storage := DataflowStorageImpl.Memory ⟨[]⟩, cluster := clusterW }
      [Action.mayExistsCheck] rfl
  have h2 := h.2 (DataflowStorageImpl.Memory
      ⟨[(HashedResourceId.fromId jA, dfA)]⟩) rfl
  exact h2

/-- A task never requests strictly before itself. -/
theorem reqBefore_irrefl {T : Type} (s : MutexState T) (v : T) :
    ¬ reqBefore s v v := by
  rintro ⟨x, y, hx, hy, hxy⟩
  rw [hx] at hy
  injection hy with h
  omega

/-- The invariant is preserved by a `request` step. -/
theorem gwInv_request {T : Type} [DecidableEq T] (s : MutexState T) (tk : T)
    (inv : GwInv s) (hg : s.phase tk = Phase.idle) :
    GwInv { s with phase := upd s.phase tk Phase.waiting,
                   queue := s.queue ++ [tk],
                   reqT := upd s.reqT tk (some s.now),
                   now := s.now + 1 } := by
  have hcallt : s.callT tk = none := by
    by_cases h : (s.callT tk).isSome
    · rcases (inv.callT_iff tk).mp h with h2 | h2 <;> rw [hg] at h2 <;> cases h2
    · exact Option.not_isSome_iff_eq_none.mp h
  have hrelt : s.relT tk = none := by
    by_cases h : (s.relT tk).isSome
    · have h2 := (inv.relT_iff tk).mp h
      rw [hg] at h2
      cases h2
    · exact Option.not_isSome_iff_eq_none.mp h
  have htq : tk ∉ s.queue := by
    intro h
    have h2 := (inv.queue_phase tk).mp h
    rw [hg] at h2
    cases h2
  have howner : s.owner ≠ some tk := by
    intro h
    rcases (inv.owner_phase tk).mp h with h2 | h2 <;> rw [hg] at h2 <;> cases h2
  refine ⟨?_, ?_, ?_, ?_, ?_, ?_, ?_, ?_, ?_, ?_⟩
  · intro u
    by_cases hu : u = tk
    · subst hu
      constructor
      · intro h
        exact absurd h howner
      · intro h
        simp [holdsToken, upd] at h
    · have h0 := inv.owner_phase u
      simpa [holdsToken, upd, hu] using h0
  · intro u
    by_cases hu : u = tk
    · subst hu
      simp [upd, List.mem_append]
    · simpa [upd, hu, List.mem_append] using inv.queue_phase u
  · refine List.Nodup.append inv.queue_nodup (List.nodup_singleton tk) ?_
    intro a ha hb
    rw [List.mem_singleton] at hb
    subst hb
    exact htq ha
  · rw [List.pairwise_append]
    refine ⟨?_, List.pairwise_singleton _ _, ?_⟩
    · refine List.Pairwise.imp_of_mem ?_ inv.queue_sorted
      intro a b ha hb hab
      obtain ⟨x, y, hx, hy, hxy⟩ := hab
      have hat : a ≠ tk := fun h => htq (h ▸ ha)
      have hbt : b ≠ tk := fun h => htq (h ▸ hb)
      exact ⟨x, y, by simpa [upd, hat] using hx, by simpa [upd, hbt] using hy, hxy⟩
    · intro a ha b hb
      rw [List.mem_singleton] at hb
      rw [hb]
      have haw : s.phase a = Phase.waiting := (inv.queue_phase a).mp ha
      have hsome : (s.reqT a).isSome := by
        refine (inv.reqT_iff a).mpr ?_
        rw [haw]
        intro h
        cases h
      obtain ⟨x, hx⟩ := Option.isSome_iff_exists.mp hsome
      have hat : a ≠ tk := fun h => htq (h ▸ ha)
      refine ⟨x, s.now, by simpa [upd, hat] using hx, by simp [upd], ?_⟩
      exact inv.times_lt_now a x (Or.inl hx)
  · intro u
    by_cases hu : u = tk
    · subst hu
      simp [upd]
    · simpa [upd, hu] using inv.reqT_iff u
  · intro u
    by_cases hu : u = tk
    · subst hu
      simp [upd, hcallt]
    · simpa [upd, hu] using inv.callT_iff u
  · intro u
    by_cases hu : u = tk
    · subst hu
      simp [upd, hrelt]
    · simpa [upd, hu] using inv.relT_iff u
  · intro u x hx
    show x < s.now + 1
    rcases hx with hx | hx | hx
    · by_cases hu : u = tk
      · subst hu
        simp [upd] at hx
        omega
      · simp only [upd] at hx
        rw [if_neg hu] at hx
        exact Nat.lt_succ_of_lt (inv.times_lt_now u x (Or.inl hx))
    · exact Nat.lt_succ_of_lt (inv.times_lt_now u x (Or.inr (Or.inl hx)))
    · exact Nat.lt_succ_of_lt (inv.times_lt_now u x (Or.inr (Or.inr hx)))
  · intro a u hab hg2
    have hut : u ≠ tk := by
      intro h
      subst h
      simp [everGranted, upd] at hg2
    have hg2' : everGranted s u := by simpa [everGranted, upd, hut] using hg2
    by_cases hat : a = tk
    · subst hat
      exfalso
      obtain ⟨x, y, hx, hy, hxy⟩ := hab
      simp [upd] at hx
      have hy' : s.reqT u = some y := by simpa [upd, hut] using hy
      have := inv.times_lt_now u y (Or.inl hy')
      omega
    · have hab' : reqBefore s a u := by
        obtain ⟨x, y, hx, hy, hxy⟩ := hab
        exact ⟨x, y, by simpa [upd, hat] using hx, by simpa [upd, hut] using hy, hxy⟩
      have := inv.fifo_key a u hab' hg2'
      simpa [upd, hat] using this
  · intro a u hab tc htc
    have hut : u ≠ tk := by
      intro h
      have htc' : s.callT u = some tc := htc
      rw [h, hcallt] at htc'
      cases htc'
    by_cases hat : a = tk
    · subst hat
      exfalso
      obtain ⟨x, y, hx, hy, hxy⟩ := hab
      simp [upd] at hx
      have hy' : s.reqT u = some y := by simpa [upd, hut] using hy
      have := inv.times_lt_now u y (Or.inl hy')
      omega
    · have hab' : reqBefore s a u := by
        obtain ⟨x, y, hx, hy, hxy⟩ := hab
        exact ⟨x, y, by simpa [upd, hat] using hx, by simpa [upd, hut] using hy, hxy⟩
      exact inv.call_after_rel a u hab' tc htc

/-- The invariant is preserved by a `grant` step (FIFO-fair handover to the
queue head when the token is free). -/
theorem gwInv_grant {T : Type} [DecidableEq T] (s : MutexState T) (tk : T)
    (inv : GwInv s) (hown : s.owner = none) (hhead : s.queue.head? = some tk) :
    GwInv { s with owner := some tk,
                   queue := s.queue.tail,
                   phase := upd s.phase tk Phase.critical,
                   now := s.now + 1 } := by
  obtain ⟨qs, hq⟩ : ∃ qs, s.queue = tk :: qs := by
    cases hq2 : s.queue with
    | nil =>
        rw [hq2] at hhead
        cases hhead
    | cons q rest =>
        rw [hq2] at hhead
        simp only [List.head?_cons, Option.some.injEq] at hhead
        exact ⟨rest, by rw [hhead]⟩
  have htw : s.phase tk = Phase.waiting :=
    (inv.queue_phase tk).mp (by rw [hq]; exact List.mem_cons_self tk qs)
  have hnodup := inv.queue_nodup
  rw [hq] at hnodup
  have htqs : tk ∉ qs := (List.nodup_cons.mp hnodup).1
  have hsorted := inv.queue_sorted
  rw [hq] at hsorted
  have hcallt : s.callT tk = none := by
    by_cases h : (s.callT tk).isSome
    · rcases (inv.callT_iff tk).mp h with h2 | h2 <;> rw [htw] at h2 <;> cases h2
    · exact Option.not_isSome_iff_eq_none.mp h
  have hrelt : s.relT tk = none := by
    by_cases h : (s.relT tk).isSome
    · have h2 := (inv.relT_iff tk).mp h
      rw [htw] at h2
      cases h2
    · exact Option.not_isSome_iff_eq_none.mp h
  rw [hq, List.tail_cons]
  refine ⟨?_, ?_, ?_, ?_, ?_, ?_, ?_, ?_, ?_, ?_⟩
  · intro u
    constructor
    · intro h
      have h2 : tk = u := by injection h
      rw [← h2]
      simp [holdsToken, upd]
    · intro h
      by_cases hu : u = tk
      · rw [hu]
      · exfalso
        have h' : holdsToken s u := by simpa [holdsToken, upd, hu] using h
        have h2 := (inv.owner_phase u).mpr h'
        rw [hown] at h2
        cases h2
  · intro u
    by_cases hu : u = tk
    · rw [hu]
      simp [upd, htqs]
    · have h0 := inv.queue_phase u
      rw [hq] at h0
      simp only [List.mem_cons] at h0
      constructor
      · intro h
        simpa [upd, hu] using h0.mp (Or.inr h)
      · intro h
        rcases h0.mpr (by simpa [upd, hu] using h) with h3 | h3
        · exact absurd h3 hu
        · exact h3
  · exact (List.nodup_cons.mp hnodup).2
  · exact (List.pairwise_cons.mp hsorted).2
  · intro u
    by_cases hu : u = tk
    · rw [hu]
      simp [upd]
      exact (inv.reqT_iff tk).mpr (by rw [htw]; intro h; cases h)
    · simpa [upd, hu] using inv.reqT_iff u
  · intro u
    by_cases hu : u = tk
    · rw [hu]
      simp [upd, hcallt]
    · simpa [upd, hu] using inv.callT_iff u
  · intro u
    by_cases hu : u = tk
    · rw [hu]
      simp [upd, hrelt]
    · simpa [upd, hu] using inv.relT_iff u
  · intro u x hx
    show x < s.now + 1
    rcases hx with hx | hx | hx
    · exact Nat.lt_succ_of_lt (inv.times_lt_now u x (Or.inl hx))
    · exact Nat.lt_succ_of_lt (inv.times_lt_now u x (Or.inr (Or.inl hx)))
    · exact Nat.lt_succ_of_lt (inv.times_lt_now u x (Or.inr (Or.inr hx)))
  · intro a u hab hg2
    have hab' : reqBefore s a u := hab
    by_cases hu : u = tk
    · rw [hu] at hab'
      by_cases hat : a = tk
      · rw [hat] at hab'
        exact absurd hab' (reqBefore_irrefl s tk)
      · cases hpa : s.phase a with
        | idle =>
            exfalso
            obtain ⟨x, y, hx, hy, hxy⟩ := hab'
            have hx2 : (s.reqT a).isSome := by rw [hx]; rfl
            exact (inv.reqT_iff a).mp hx2 hpa
        | waiting =>
            exfalso
            have haq : a ∈ s.queue := (inv.queue_phase a).mpr hpa
            rw [hq] at haq
            rcases List.mem_cons.mp haq with h | h
            · exact hat h
            · have hba := (List.pairwise_cons.mp hsorted).1 a h
              obtain ⟨x, y, hx, hy, hxy⟩ := hba
              obtain ⟨x2, y2, hx2, hy2, hxy2⟩ := hab'
              rw [hx2] at hy
              rw [hy2] at hx
              injection hy with e1
              injection hx with e2
              omega
        | critical =>
            exfalso
            have h2 := (inv.owner_phase a).mpr (Or.inl hpa)
            rw [hown] at h2
            cases h2
        | called =>
            exfalso
            have h2 := (inv.owner_phase a).mpr (Or.inr hpa)
            rw [hown] at h2
            cases h2
        | finished =>
            simpa [upd, hat] using hpa
    · have hg2' : everGranted s u := by simpa [everGranted, upd, hu] using hg2
      have hfin := inv.fifo_key a u hab' hg2'
      by_cases hat : a = tk
      · exfalso
        rw [hat] at hfin
        rw [htw] at hfin
        cases hfin
      · simpa [upd, hat] using hfin
  · intro a u hab tc htc
    have hab' : reqBefore s a u := hab
    have htc' : s.callT u = some tc := htc
    exact inv.call_after_rel a u hab' tc htc'

/-- The invariant is preserved by a `transport` step (the token holder
begins its underlying transport call). -/
theorem gwInv_transport {T : Type} [DecidableEq T] (s : MutexState T) (tk : T)
    (inv : GwInv s) (hown : s.owner = some tk)
    (hpt : s.phase tk = Phase.critical) :
    GwInv { s with phase := upd s.phase tk Phase.called,
                   callT := upd s.callT tk (some s.now),
                   now := s.now + 1 } := by
  have htq : tk ∉ s.queue := by
    intro h
    have h2 := (inv.queue_phase tk).mp h
    rw [hpt] at h2
    cases h2
  have hrelt : s.relT tk = none := by
    by_cases h : (s.relT tk).isSome
    · have h2 := (inv.relT_iff tk).mp h
      rw [hpt] at h2
      cases h2
    · exact Option.not_isSome_iff_eq_none.mp h
  refine ⟨?_, ?_, ?_, ?_, ?_, ?_, ?_, ?_, ?_, ?_⟩
  · intro u
    by_cases hu : u = tk
    · rw [hu]
      simp [holdsToken, upd, hown]
    · have h0 := inv.owner_phase u
      simpa [holdsToken, upd, hu] using h0
  · intro u
    by_cases hu : u = tk
    · rw [hu]
      simp [upd, htq]
    · simpa [upd, hu] using inv.queue_phase u
  · exact inv.queue_nodup
  · exact inv.queue_sorted
  · intro u
    by_cases hu : u = tk
    · rw [hu]
      simp [upd]
      exact (inv.reqT_iff tk).mpr (by rw [hpt]; intro h; cases h)
    · simpa [upd, hu] using inv.reqT_iff u
  · intro u
    by_cases hu : u = tk
    · rw [hu]
      simp [upd]
    · simpa [upd, hu] using inv.callT_iff u
  · intro u
    by_cases hu : u = tk
    · rw [hu]
      simp [upd, hrelt]
    · simpa [upd, hu] using inv.relT_iff u
  · intro u x hx
    show x < s.now + 1
    rcases hx with hx | hx | hx
    · exact Nat.lt_succ_of_lt (inv.times_lt_now u x (Or.inl hx))
    · by_cases hu : u = tk
      · rw [hu] at hx
        simp [upd] at hx
        omega
      · simp only [upd] at hx
        rw [if_neg hu] at hx
        exact Nat.lt_succ_of_lt (inv.times_lt_now u x (Or.inr (Or.inl hx)))
    · exact Nat.lt_succ_of_lt (inv.times_lt_now u x (Or.inr (Or.inr hx)))
  · intro a u hab hg2
    have hab' : reqBefore s a u := hab
    have hg2' : everGranted s u := by
      by_cases hu : u = tk
      · rw [hu]
        exact Or.inl hpt
      · simpa [everGranted, upd, hu] using hg2
    have hfin := inv.fifo_key a u hab' hg2'
    by_cases hat : a = tk
    · exfalso
      rw [hat] at hfin
      rw [hpt] at hfin
      cases hfin
    · simpa [upd, hat] using hfin
  · intro a u hab tc htc
    have hab' : reqBefore s a u := hab
    by_cases hu : u = tk
    · rw [hu] at htc hab'
      have htc2 : upd s.callT tk (some s.now) tk = some tc := htc
      simp [upd] at htc2
      have hfin := inv.fifo_key a tk hab' (Or.inl hpt)
      have hsome : (s.relT a).isSome := (inv.relT_iff a).mpr hfin
      obtain ⟨tr, htr⟩ := Option.isSome_iff_exists.mp hsome
      refine ⟨tr, htr, ?_⟩
      have hlt := inv.times_lt_now a tr (Or.inr (Or.inr htr))
      omega
    · have htc' : s.callT u = some tc := by simpa [upd, hu] using htc
      obtain ⟨tr, htr, hlt⟩ := inv.call_after_rel a u hab' tc htc'
      exact ⟨tr, htr, hlt⟩

/-- The invariant is preserved by a `release` step (the token holder
finishes its round trip and frees the token). -/
theorem gwInv_release {T : Type} [DecidableEq T] (s : MutexState T) (tk : T)
    (inv : GwInv s) (hown : s.owner = some tk)
    (hpt : s.phase tk = Phase.called) :
    GwInv { s with owner := none,
                   phase := upd s.phase tk Phase.finished,
                   relT := upd s.relT tk (some s.now),
                   now := s.now + 1 } := by
  have htq : tk ∉ s.queue := by
    intro h
    have h2 := (inv.queue_phase tk).mp h
    rw [hpt] at h2
    cases h2
  refine ⟨?_, ?_, ?_, ?_, ?_, ?_, ?_, ?_, ?_, ?_⟩
  · intro u
    constructor
    · intro h
      exact Option.noConfusion h
    · intro h
      exfalso
      by_cases hu : u = tk
      · rw [hu] at h
        simp [holdsToken, upd] at h
      · have h' : holdsToken s u := by simpa [holdsToken, upd, hu] using h
        have h2 := (inv.owner_phase u).mpr h'
        rw [hown] at h2
        injection h2 with h3
        exact hu h3.symm
  · intro u
    by_cases hu : u = tk
    · rw [hu]
      simp [upd, htq]
    · simpa [upd, hu] using inv.queue_phase u
  · exact inv.queue_nodup
  · exact inv.queue_sorted
  · intro u
    by_cases hu : u = tk
    · rw [hu]
      simp [upd]
      exact (inv.reqT_iff tk).mpr (by rw [hpt]; intro h; cases h)
    · simpa [upd, hu] using inv.reqT_iff u
  · intro u
    by_cases hu : u = tk
    · rw [hu]
      simp [upd]
      exact (inv.callT_iff tk).mpr (Or.inl hpt)
    · simpa [upd, hu] using inv.callT_iff u
  · intro u
    by_cases hu : u = tk
    · rw [hu]
      simp [upd]
    · simpa [upd, hu] using inv.relT_iff u
  · intro u x hx
    show x < s.now + 1
    rcases hx with hx | hx | hx
    · exact Nat.lt_succ_of_lt (inv.times_lt_now u x (Or.inl hx))
    · exact Nat.lt_succ_of_lt (inv.times_lt_now u x (Or.inr (Or.inl hx)))
    · by_cases hu : u = tk
      · rw [hu] at hx
        simp [upd] at hx
        omega
      · simp only [upd] at hx
        rw [if_neg hu] at hx
        exact Nat.lt_succ_of_lt (inv.times_lt_now u x (Or.inr (Or.inr hx)))
  · intro a u hab hg2
    have hab' : reqBefore s a u := hab
    have hg2' : everGranted s u := by
      by_cases hu : u = tk
      · rw [hu]
        exact Or.inr (Or.inl hpt)
      · simpa [everGranted, upd, hu] using hg2
    have hfin := inv.fifo_key a u hab' hg2'
    by_cases hat : a = tk
    · exfalso
      rw [hat] at hfin
      rw [hpt] at hfin
      cases hfin
    · simpa [upd, hat] using hfin
  · intro a u hab tc htc
    have hab' : reqBefore s a u := hab
    have htc' : s.callT u = some tc := htc
    by_cases hat : a = tk
    · exfalso
      rw [hat] at hab'
      obtain ⟨tr, htr, hlt⟩ := inv.call_after_rel tk u hab' tc htc'
      have hsome : (s.relT tk).isSome := by rw [htr]; rfl
      have h2 := (inv.relT_iff tk).mp hsome
      rw [hpt] at h2
      cases h2
    · obtain ⟨tr, htr, hlt⟩ := inv.call_after_rel a u hab' tc htc'
      exact ⟨tr, by simpa [upd, hat] using htr, hlt⟩

/-- The initial state satisfies the invariant. -/
theorem gwInv_init {T : Type} [DecidableEq T] : GwInv (initState T) := by
  refine ⟨?_, ?_, ?_, ?_, ?_, ?_, ?_, ?_, ?_, ?_⟩
  · intro u
    simp [initState, holdsToken]
  · intro u
    simp [initState]
  · simp [initState]
  · simp [initState]
  · intro u
    simp [initState]
  · intro u
    simp [initState]
  · intro u
    simp [initState]
  · intro u x hx
    rcases hx with hx | hx | hx <;> simp [initState] at hx
  · intro a u hab _
    obtain ⟨x, y, hx, _, _⟩ := hab
    simp [initState] at hx
  · intro a u hab tc htc
    simp [initState] at htc

/-- Each guarded step preserves the invariant. -/
theorem gwInv_step {T : Type} [DecidableEq T] (s s' : MutexState T)
    (a : GwAct T) (inv : GwInv s) (h : applyGwAct s a = some s') : GwInv s' := by
  cases a with
  | request tk =>
      simp only [applyGwAct] at h
      by_cases hg : s.phase tk = Phase.idle
      · rw [if_pos hg] at h
        injection h with h
        exact h ▸ gwInv_request s tk inv hg
      · rw [if_neg hg] at h
        cases h
  | grant tk =>
      simp only [applyGwAct] at h
      by_cases hg : s.owner = none ∧ s.queue.head? = some tk
      · rw [if_pos hg] at h
        injection h with h
        exact h ▸ gwInv_grant s tk inv hg.1 hg.2
      · rw [if_neg hg] at h
        cases h
  | transport tk =>
      simp only [applyGwAct] at h
      by_cases hg : s.owner = some tk ∧ s.phase tk = Phase.critical
      · rw [if_pos hg] at h
        injection h with h
        exact h ▸ gwInv_transport s tk inv hg.1 hg.2
      · rw [if_neg hg] at h
        cases h
  | release tk =>
      simp only [applyGwAct] at h
      by_cases hg : s.owner = some tk ∧ s.phase tk = Phase.called
      · rw [if_pos hg] at h
        injection h with h
        exact h ▸ gwInv_release s tk inv hg.1 hg.2
      · rw [if_neg hg] at h
        cases h

/-- Any state reached by a run of guarded steps satisfies the invariant. -/
theorem gwInv_run {T : Type} [DecidableEq T] (acts : List (GwAct T)) :
    ∀ s s' : MutexState T, GwInv s → runGw s acts = some s' → GwInv s' := by
  induction acts with
  | nil =>
      intro s s' inv h
      simp only [runGw, Option.some.injEq] at h
      exact h ▸ inv
  | cons a rest ih =>
      intro s s' inv h
      cases hap : applyGwAct s a with
      | none => simp [runGw, hap] at h
      | some s1 =>
          simp only [runGw, hap] at h
          exact ih s1 s' (gwInv_step s s1 a inv hap) h

/-- C8: through one gateway the per-peer mutual-exclusion token is held by
at most one call at a time for the whole round trip (mutual exclusion on
`holdsToken`), and calls are served FIFO: if call `a` was issued strictly
before call `b`, then `a` released the token (completed or errored) strictly
before `b` began its underlying transport call. -/
theorem C8_gateway_fifo {T : Type} [DecidableEq T] (acts : List (GwAct T))
    (s : MutexState T) (hreach : runGw (initState T) acts = some s) :
    (∀ a b, holdsToken s a → holdsToken s b → a = b) ∧
    (∀ a b ta tb tc, s.reqT a = some ta → s.reqT b = some tb → ta < tb →
      s.callT b = some tc → ∃ tr, s.relT a = some tr ∧ tr < tc) := by
  have inv := gwInv_run acts (initState T) s gwInv_init hreach
  constructor
  · intro a b ha hb
    have h1 := (inv.owner_phase a).mpr ha
    have h2 := (inv.owner_phase b).mpr hb
    rw [h1] at h2
    injection h2
  · intro a b ta tb tc hta htb htab htc
    exact inv.call_after_rel a b ⟨ta, tb, hta, htb, htab⟩ tc htc

/-- Witness for C8: two concrete overlapping calls through one gateway;
the first call's release (time 4) precedes the second call's transport call
(time 6). -/
theorem C8_gateway_fifo_witness :
    demoFinal.relT false = some 4 ∧ demoFinal.callT true = some 6 ∧
      (4 : Nat) < 6 := by
  obtain ⟨tr, htr, hlt⟩ := (C8_gateway_fifo demoActs demoFinal rfl).2
    false true 0 1 6 rfl rfl (by omega) rfl
  exact ⟨rfl, rfl, by omega⟩

end Lightflus
